import Mathlib

/-!
A shallow embedding of `src/exam/server.js`: a small Express service exposing
CRUD operations on a list of book records persisted in a JSON file
(`books.json`).  Field values of stored records and of request bodies are
primitive JSON values (null, booleans, numbers, strings); numbers are
modelled as integers.  The file system and `JSON.parse` / `JSON.stringify`
are external collaborators of the code under inspection, so the persisted
file is modelled abstractly as either absent, present-but-unparseable, or
present with a given parsed top-level value.  A separate text-level model of
the persisted format (the exact output of `JSON.stringify(books, null, 2)`
together with a parser for that grammar) backs the round-trip theorems.
-/

namespace Exam

/-- A primitive JSON / JavaScript value, as stored in record fields and in
request-body fields. -/
inductive JsVal where
  | vNull
  | vBool (b : Bool)
  | vNum (n : Int)
  | vStr (s : String)
deriving DecidableEq, Repr

/-- JavaScript truthiness of a value (`Boolean(v)`; also `!v`, negated). -/
def JsVal.truthy : JsVal → Bool
  | .vNull => false
  | .vBool b => b
  | .vNum n => n != 0
  | .vStr s => s != ""

/-- JavaScript `String(v)` on a primitive value. -/
def JsVal.toText : JsVal → String
  | .vNull => "null"
  | .vBool true => "true"
  | .vBool false => "false"
  | .vNum n => toString n
  | .vStr s => s

/-- A stored record (one element of the `books.json` array).  The code only
reads the four fields below; a field holds `none` when absent (JavaScript
`undefined`). -/
structure BookRec where
  id : Option JsVal
  title : Option JsVal
  author : Option JsVal
  available : Option JsVal
deriving DecidableEq, Repr, Inhabited

/-- A parsed request body, restricted to the three keys the handlers consult
(`title`, `author`, `available`); a field is `none` when its key is absent
from the body.  JSON bodies cannot contain `undefined`, so key present is the
same as field `some`. -/
structure ReqBody where
  title : Option JsVal
  author : Option JsVal
  available : Option JsVal
deriving DecidableEq, Repr

/-- A parsed top-level JSON value of the backing file: an array of records,
or some non-array value. -/
inductive JTop where
  | arr (books : List BookRec)
  | nonArray (v : JsVal)
deriving DecidableEq

/-- The backing `books.json` file as the program observes it through
`fs.readFile` plus `JSON.parse`: missing (ENOENT), present but not valid
JSON, or present with parsed content `t`. -/
inductive FileSt where
  | absent
  | unparseable
  | parsed (t : JTop)
deriving DecidableEq

/-- Error outcomes of the handlers (mapped to HTTP 500 / 400 / 404). -/
inductive Err where
  | storage
  | validation (msg : String)
  | notFound
deriving DecidableEq, Repr

/-- `readBooks` (server.js:10-22): a missing file yields the empty
collection; a `JSON.parse` failure is re-thrown; a parsed non-array yields
the empty collection. -/
def readBooks : FileSt → Except Err (List BookRec)
  | .absent => .ok []
  | .unparseable => .error .storage
  | .parsed (.arr books) => .ok books
  | .parsed (.nonArray _) => .ok []

/-- `writeBooks` (server.js:24-31): overwrites the file in full with
`JSON.stringify(books, null, 2)`, content that parses back to the same
array. -/
def writeBooks (books : List BookRec) : FileSt := .parsed (.arr books)

/-- The whitespace skipped by `Number.parseInt`. -/
def isJsSpace (c : Char) : Bool :=
  c = ' ' || c = '\t' || c = '\n' || c = '\r' || c = '\x0b' || c = '\x0c'

/-- The longest leading run of decimal digits, as a number; `none` when the
input has no leading digit. -/
def leadDigits (cs : List Char) : Option Nat :=
  match cs.takeWhile Char.isDigit with
  | [] => none
  | ds => some (ds.foldl (fun a c => 10 * a + (c.toNat - 48)) 0)

/-- `parseId` (server.js:33-36), that is `Number.parseInt(idStr, 10)` with
the `NaN` outcome mapped to `none`: leading whitespace is skipped, one
optional sign is accepted, the longest leading digit run gives the value,
trailing characters are ignored, and no digits at all means `NaN`. -/
def parseId (s : String) : Option Int :=
  match s.data.dropWhile isJsSpace with
  | '-' :: rest => (leadDigits rest).map (fun n => -(n : Int))
  | '+' :: rest => (leadDigits rest).map (fun n => (n : Int))
  | cs => (leadDigits cs).map (fun n => (n : Int))

/-- The fold computing `maxId` (server.js:73): the largest `id` field that is
a number, starting from 0. -/
def maxIdFold (books : List BookRec) : Int :=
  books.foldl
    (fun mx b => match b.id with
      | some (.vNum n) => if n > mx then n else mx
      | _ => mx) 0

/-- Truthiness of a possibly-undefined value (`!x` on a destructured
field, negated). -/
def truthyOpt : Option JsVal → Bool
  | none => false
  | some v => v.truthy

/-- The record a successful `POST /books` constructs (server.js:74-79).  The
handler only reaches this point with `title` and `author` truthy, hence
present; the `.getD .vNull` defaults are never exercised on that path. -/
def mkNewBook (body : ReqBody) (books : List BookRec) : BookRec :=
  { id := some (.vNum (maxIdFold books + 1))
  , title := some (.vStr (body.title.getD .vNull).toText)
  , author := some (.vStr (body.author.getD .vNull).toText)
  , available := some (.vBool (match body.available with
      | some (.vBool b) => b
      | _ => false)) }

/-- `POST /books` (server.js:64-88): validate, read, append, write.  The
result pairs the outcome with the post-state of the backing file. -/
def createBook (body : ReqBody) (st : FileSt) : Except Err BookRec × FileSt :=
  if !truthyOpt body.title || !truthyOpt body.author then
    (.error (.validation "title and author are required"), st)
  else
    match readBooks st with
    | .error e => (.error e, st)
    | .ok books =>
      let nb := mkNewBook body books
      (.ok nb, writeBooks (books ++ [nb]))

/-- `GET /books` (server.js:44-51). -/
def listAll (st : FileSt) : Except Err (List BookRec) := readBooks st

/-- `GET /books/available` (server.js:54-61): keep the records whose
`available` field is strictly equal (`===`) to the boolean `true`.  An object
is always truthy, so the `b &&` guard only matters for non-object array
elements, which the record model excludes. -/
def listAvailable (st : FileSt) : Except Err (List BookRec) :=
  (readBooks st).map (List.filter (fun b => b.available == some (.vBool true)))

/-- Does the body contain at least one of the keys `title`, `author`,
`available` (server.js:99-103)? -/
def hasAllowedField (body : ReqBody) : Bool :=
  body.title.isSome || body.author.isSome || body.available.isSome

/-- The field updates of `PUT /books/:id` (server.js:111-115): each supplied
field overwrites the stored one, `title` and `author` through `String(...)`,
`available` through `Boolean(...)`; the `id` field is never written. -/
def applyUpdates (body : ReqBody) (b : BookRec) : BookRec :=
  let b1 := match body.title with
    | some v => { b with title := some (.vStr v.toText) }
    | none => b
  let b2 := match body.author with
    | some v => { b1 with author := some (.vStr v.toText) }
    | none => b1
  match body.available with
  | some v => { b2 with available := some (.vBool v.truthy) }
  | none => b2

/-- The lookup `books.findIndex(b => b && b.id === id)` (server.js:106,134):
strict equality of a number `i` with the `id` field. -/
def findBookIdx (books : List BookRec) (i : Int) : Option Nat :=
  books.findIdx? (fun b => b.id == some (.vNum i))

/-- The part of `PUT /books/:id` that runs after a successful id parse
(server.js:98-122): body check, lookup, field overwrite, persist. -/
def updateParsed (i : Int) (body : ReqBody) (st : FileSt) :
    Except Err BookRec × FileSt :=
  if !hasAllowedField body then
    (.error (.validation "At least one of title, author, available must be provided"), st)
  else
    match readBooks st with
    | .error e => (.error e, st)
    | .ok books =>
      match findBookIdx books i with
      | none => (.error .notFound, st)
      | some idx =>
        let b := applyUpdates body (books.getD idx default)
        (.ok b, writeBooks (books.set idx b))

/-- `PUT /books/:id` (server.js:91-123). -/
def updateBook (idStr : String) (body : ReqBody) (st : FileSt) :
    Except Err BookRec × FileSt :=
  match parseId idStr with
  | none => (.error (.validation "Invalid id"), st)
  | some i => updateParsed i body st

/-- The part of `DELETE /books/:id` that runs after a successful id parse
(server.js:133-145): lookup, splice, persist. -/
def deleteParsed (i : Int) (st : FileSt) : Except Err Unit × FileSt :=
  match readBooks st with
  | .error e => (.error e, st)
  | .ok books =>
    match findBookIdx books i with
    | none => (.error .notFound, st)
    | some idx => (.ok (), writeBooks (books.eraseIdx idx))

/-- `DELETE /books/:id` (server.js:126-146). -/
def deleteBook (idStr : String) (st : FileSt) : Except Err Unit × FileSt :=
  match parseId idStr with
  | none => (.error (.validation "Invalid id"), st)
  | some i => deleteParsed i st

/-! ### The spec-side reading of id assignment -/

/-- The numeric `id` fields of a collection, in order. -/
def numericIds (books : List BookRec) : List Int :=
  books.filterMap (fun b => match b.id with
    | some (.vNum n) => some n
    | _ => none)

/-- The maximum of the numeric ids of a collection, clamped below at 0: the
spec-side reading of the id-assignment invariant ("maximum existing numeric
id, or 0 if empty/absent"). -/
def specMaxId (books : List BookRec) : Int :=
  (numericIds books).foldl max 0

/-! ### An interleaving model of concurrent creates

Each `POST /books` request performs `await readBooks()` and later
`await writeBooks(books)`; between the two awaits another request can run.
A pending create is therefore split into its read phase and its write
phase, and a scheduler chooses which pending request steps next. -/

/-- One pending `POST /books` request with a valid body: still to read the
file, or holding the collection it read and still to write. -/
inductive CreateTask where
  | toRead (body : ReqBody)
  | toWrite (body : ReqBody) (books : List BookRec)
  | finished
deriving DecidableEq

/-- One step of a pending create against the shared file: the read phase
(server.js:72) or the write phase (server.js:81-82) of the handler. -/
def stepCreate : CreateTask → FileSt → CreateTask × FileSt
  | .toRead body, st =>
    match readBooks st with
    | .ok books => (.toWrite body books, st)
    | .error _ => (.finished, st)
  | .toWrite body books, _ => (.finished, writeBooks (books ++ [mkNewBook body books]))
  | .finished, st => (.finished, st)

/-- Run two concurrent create requests under a schedule: `false` steps the
first request, `true` the second. -/
def runTwo (sched : List Bool) (t1 t2 : CreateTask) (st : FileSt) : FileSt :=
  match sched with
  | [] => st
  | b :: rest =>
    if b then
      let p := stepCreate t2 st
      runTwo rest t1 p.1 p.2
    else
      let p := stepCreate t1 st
      runTwo rest p.1 t2 p.2

/-! ### The persisted text format

`writeBooks` stores `JSON.stringify(books, null, 2)`.  The functions below
produce that exact text (two-space indentation, one field per line, fields in
the insertion order `id`, `title`, `author`, `available`, absent fields
omitted, strings escaped as `JSON.stringify` escapes them), and parse the
array grammar back.  They work on `List Char`; `String` wrappers sit at the
boundary. -/

/-- Lowercase hexadecimal digit character of `n < 16`. -/
def toHexChar (n : Nat) : Char :=
  if n < 10 then Char.ofNat (48 + n) else Char.ofNat (87 + n)

/-- One character as `JSON.stringify` emits it inside a string literal:
quote and backslash get a backslash escape, the named control characters get
their short escapes, the remaining control characters get `\u00xx`, and
everything else stands for itself. -/
def escChar (c : Char) : List Char :=
  if c = '"' then ['\\', '"']
  else if c = '\\' then ['\\', '\\']
  else if c = '\x08' then ['\\', 'b']
  else if c = '\t' then ['\\', 't']
  else if c = '\n' then ['\\', 'n']
  else if c = '\x0c' then ['\\', 'f']
  else if c = '\r' then ['\\', 'r']
  else if c.toNat < 32 then
    ['\\', 'u', '0', '0', toHexChar (c.toNat / 16), toHexChar (c.toNat % 16)]
  else [c]

/-- A character run, escaped. -/
def escList : List Char → List Char
  | [] => []
  | c :: cs => escChar c ++ escList cs

/-- Decimal digit characters of `n`, most significant first, in front of
`acc`. -/
def natChars (n : Nat) (acc : List Char) : List Char :=
  if h : n < 10 then Char.ofNat (48 + n) :: acc
  else natChars (n / 10) (Char.ofNat (48 + n % 10) :: acc)
termination_by n
decreasing_by exact Nat.div_lt_self (by omega) (by omega)

/-- The decimal text of an integer, as JavaScript prints an integral
number. -/
def intChars (i : Int) : List Char :=
  if i < 0 then '-' :: natChars i.natAbs [] else natChars i.natAbs []

/-- The text of one primitive value, as `JSON.stringify` emits it. -/
def jvalChars : JsVal → List Char
  | .vNull => ['n', 'u', 'l', 'l']
  | .vBool true => ['t', 'r', 'u', 'e']
  | .vBool false => ['f', 'a', 'l', 's', 'e']
  | .vNum n => intChars n
  | .vStr s => '"' :: (escList s.data ++ ['"'])

/-- The present fields of a record, in the key order of the records the code
builds (`id`, `title`, `author`, `available`); `JSON.stringify` omits
`undefined` fields. -/
def fieldsOf (b : BookRec) : List (String × JsVal) :=
  (match b.id with | some v => [("id", v)] | none => []) ++
  (match b.title with | some v => [("title", v)] | none => []) ++
  (match b.author with | some v => [("author", v)] | none => []) ++
  (match b.available with | some v => [("available", v)] | none => [])

/-- One `"key": value` item. -/
def fieldChars (kv : String × JsVal) : List Char :=
  '"' :: (escList kv.1.data ++ ('"' :: ':' :: ' ' :: jvalChars kv.2))

/-- The remaining fields of an object, each on its own line indented four
spaces after a comma. -/
def restFieldsChars : List (String × JsVal) → List Char
  | [] => []
  | kv :: kvs => ',' :: '\n' :: ' ' :: ' ' :: ' ' :: ' ' ::
      (fieldChars kv ++ restFieldsChars kvs)

/-- One record object, as `JSON.stringify(·, null, 2)` prints it one level
inside the array. -/
def bookChars (b : BookRec) : List Char :=
  match fieldsOf b with
  | [] => ['{', '}']
  | kv :: kvs => '{' :: '\n' :: ' ' :: ' ' :: ' ' :: ' ' ::
      (fieldChars kv ++ restFieldsChars kvs ++ ['\n', ' ', ' ', '}'])

/-- The remaining items of the array, each after a comma on its own
two-space-indented line. -/
def restBooksChars : List BookRec → List Char
  | [] => []
  | b :: bs => ',' :: '\n' :: ' ' :: ' ' :: (bookChars b ++ restBooksChars bs)

/-- The full file content `JSON.stringify(books, null, 2)`. -/
def booksChars : List BookRec → List Char
  | [] => ['[', ']']
  | b :: bs => '[' :: '\n' :: ' ' :: ' ' ::
      (bookChars b ++ restBooksChars bs ++ ['\n', ']'])

/-- The content `writeBooks` puts on disk, as a string. -/
def stringifyBooks (books : List BookRec) : String := ⟨booksChars books⟩

/-! #### Parsing the persisted format -/

/-- JSON inter-token whitespace. -/
def isWsChar (c : Char) : Bool := c = ' ' || c = '\n' || c = '\t' || c = '\r'

/-- Drop leading whitespace. -/
def skipWs : List Char → List Char
  | [] => []
  | c :: cs => if isWsChar c then skipWs cs else c :: cs

/-- Expect the exact literal `lit`; give back the remainder. -/
def parseLit : List Char → List Char → Option (List Char)
  | [], cs => some cs
  | _ :: _, [] => none
  | l :: ls, c :: cs => if c = l then parseLit ls cs else none

/-- Value of one hexadecimal digit character. -/
def hexVal (c : Char) : Option Nat :=
  if 48 ≤ c.toNat && c.toNat ≤ 57 then some (c.toNat - 48)
  else if 97 ≤ c.toNat && c.toNat ≤ 102 then some (c.toNat - 87)
  else if 65 ≤ c.toNat && c.toNat ≤ 70 then some (c.toNat - 55)
  else none

/-- One escape character after a backslash, decoded. -/
def unescapeChar (e : Char) : Option Char :=
  if e = '"' then some '"'
  else if e = '\\' then some '\\'
  else if e = 'b' then some '\x08'
  else if e = 't' then some '\t'
  else if e = 'n' then some '\n'
  else if e = 'f' then some '\x0c'
  else if e = 'r' then some '\r'
  else none

/-- Parse the body of a string literal after its opening quote, undoing the
escapes `escChar` can emit; stops at the closing quote. -/
def parseStrAux : List Char → Option (List Char × List Char)
  | [] => none
  | '"' :: rest => some ([], rest)
  | '\\' :: 'u' :: h1 :: h2 :: h3 :: h4 :: rest =>
    match hexVal h1, hexVal h2, hexVal h3, hexVal h4 with
    | some v1, some v2, some v3, some v4 =>
      (parseStrAux rest).map
        (fun p => (Char.ofNat (((v1 * 16 + v2) * 16 + v3) * 16 + v4) :: p.1, p.2))
    | _, _, _, _ => none
  | '\\' :: e :: rest =>
    match unescapeChar e with
    | some c => (parseStrAux rest).map (fun p => (c :: p.1, p.2))
    | none => none
  | c :: rest => (parseStrAux rest).map (fun p => (c :: p.1, p.2))

/-- Fold the longest leading digit run onto an accumulator. -/
def parseNatAux : List Char → Nat → Nat × List Char
  | [], acc => (acc, [])
  | c :: cs, acc =>
    if c.isDigit then parseNatAux cs (10 * acc + (c.toNat - 48)) else (acc, c :: cs)

/-- Parse a number: an optional minus sign, then at least one digit. -/
def parseIntChars : List Char → Option (Int × List Char)
  | [] => none
  | c :: cs =>
    if c = '-' then
      match cs with
      | [] => none
      | d :: ds =>
        if d.isDigit then
          match parseNatAux ds (d.toNat - 48) with
          | (n, rest) => some (-(n : Int), rest)
        else none
    else if c.isDigit then
      match parseNatAux cs (c.toNat - 48) with
      | (n, rest) => some ((n : Int), rest)
    else none

/-- Parse one primitive value. -/
def parseJVal (cs : List Char) : Option (JsVal × List Char) :=
  match cs with
  | [] => none
  | c :: rest =>
    if c = '"' then (parseStrAux rest).map (fun p => (.vStr ⟨p.1⟩, p.2))
    else if c = 't' then (parseLit ['r', 'u', 'e'] rest).map (fun r => (.vBool true, r))
    else if c = 'f' then (parseLit ['a', 'l', 's', 'e'] rest).map (fun r => (.vBool false, r))
    else if c = 'n' then (parseLit ['u', 'l', 'l'] rest).map (fun r => (.vNull, r))
    else (parseIntChars (c :: rest)).map (fun p => (.vNum p.1, p.2))

/-- Parse one `"key": value` item. -/
def parseField (cs : List Char) : Option ((String × JsVal) × List Char) :=
  match cs with
  | [] => none
  | c :: rest =>
    if c = '"' then
      match parseStrAux rest with
      | none => none
      | some (key, rest1) =>
        match skipWs rest1 with
        | [] => none
        | c2 :: rest2 =>
          if c2 = ':' then
            match parseJVal (skipWs rest2) with
            | none => none
            | some (v, rest3) => some ((⟨key⟩, v), rest3)
          else none
    else none

/-- Parse one-or-more comma-separated fields up to the closing brace;
`fuel` bounds the number of fields. -/
def parseFieldsAux : Nat → List Char → Option (List (String × JsVal) × List Char)
  | 0, _ => none
  | fuel + 1, cs =>
    match parseField cs with
    | none => none
    | some (kv, rest) =>
      match skipWs rest with
      | [] => none
      | c :: rest2 =>
        if c = ',' then
          (parseFieldsAux fuel (skipWs rest2)).map (fun p => (kv :: p.1, p.2))
        else if c = '}' then some ([kv], rest2)
        else none

/-- Parse one object into its field list. -/
def parseObj (fuel : Nat) (cs : List Char) :
    Option (List (String × JsVal) × List Char) :=
  match cs with
  | [] => none
  | c :: rest =>
    if c = '{' then
      match skipWs rest with
      | [] => none
      | c2 :: rest2 =>
        if c2 = '}' then some ([], rest2)
        else parseFieldsAux fuel (c2 :: rest2)
    else none

/-- First value bound to `key`, if any (rendered objects have distinct
keys). -/
def lookupField (key : String) : List (String × JsVal) → Option JsVal
  | [] => none
  | kv :: kvs => if kv.1 = key then some kv.2 else lookupField key kvs

/-- A record from a parsed field list. -/
def recOfFields (fs : List (String × JsVal)) : BookRec :=
  { id := lookupField "id" fs
  , title := lookupField "title" fs
  , author := lookupField "author" fs
  , available := lookupField "available" fs }

/-- Parse one-or-more comma-separated objects up to the closing bracket. -/
def parseItemsAux : Nat → List Char → Option (List BookRec × List Char)
  | 0, _ => none
  | fuel + 1, cs =>
    match parseObj fuel cs with
    | none => none
    | some (fs, rest) =>
      match skipWs rest with
      | [] => none
      | c :: rest2 =>
        if c = ',' then
          (parseItemsAux fuel (skipWs rest2)).map (fun p => (recOfFields fs :: p.1, p.2))
        else if c = ']' then some ([recOfFields fs], rest2)
        else none

/-- Parse a whole persisted file: one array of record objects with nothing
but whitespace around it. -/
def parseBooksChars (cs : List Char) : Option (List BookRec) :=
  match skipWs cs with
  | [] => none
  | c :: rest =>
    if c = '[' then
      match skipWs rest with
      | [] => none
      | c2 :: rest2 =>
        if c2 = ']' then if skipWs rest2 = [] then some [] else none
        else
          match parseItemsAux (cs.length + 5) (c2 :: rest2) with
          | none => none
          | some (books, rest3) => if skipWs rest3 = [] then some books else none
    else none

/-- Parse a persisted file given as a string. -/
def parseBooksFile (s : String) : Option (List BookRec) := parseBooksChars s.data

/-! ### Spec-side predicates -/

/-- The title/author is missing or falsy: the amended reading of the Create
validation rule ("missing or empty" widened to the JavaScript-falsy
values). -/
def missingOrFalsy (x : Option JsVal) : Prop :=
  x = none ∨ x = some .vNull ∨ x = some (.vBool false) ∨
    x = some (.vNum 0) ∨ x = some (.vStr "")

instance (x : Option JsVal) : Decidable (missingOrFalsy x) := by
  unfold missingOrFalsy; infer_instance

/-- A record of the shape the data model prescribes for persisted books: an
integral id, string title and author, boolean availability. -/
def ValidBook (b : BookRec) : Prop :=
  (∃ n : Int, b.id = some (.vNum n)) ∧
  (∃ s : String, b.title = some (.vStr s)) ∧
  (∃ s : String, b.author = some (.vStr s)) ∧
  (∃ v : Bool, b.available = some (.vBool v))

instance decExNum (x : Option JsVal) : Decidable (∃ n : Int, x = some (.vNum n)) :=
  match x with
  | some (.vNum n) => isTrue ⟨n, rfl⟩
  | none => isFalse (by rintro ⟨n, h⟩; cases h)
  | some .vNull => isFalse (by rintro ⟨n, h⟩; cases h)
  | some (.vBool _) => isFalse (by rintro ⟨n, h⟩; cases h)
  | some (.vStr _) => isFalse (by rintro ⟨n, h⟩; cases h)

instance decExStr (x : Option JsVal) : Decidable (∃ s : String, x = some (.vStr s)) :=
  match x with
  | some (.vStr s) => isTrue ⟨s, rfl⟩
  | none => isFalse (by rintro ⟨s, h⟩; cases h)
  | some .vNull => isFalse (by rintro ⟨s, h⟩; cases h)
  | some (.vBool _) => isFalse (by rintro ⟨s, h⟩; cases h)
  | some (.vNum _) => isFalse (by rintro ⟨s, h⟩; cases h)

instance decExBool (x : Option JsVal) : Decidable (∃ v : Bool, x = some (.vBool v)) :=
  match x with
  | some (.vBool v) => isTrue ⟨v, rfl⟩
  | none => isFalse (by rintro ⟨v, h⟩; cases h)
  | some .vNull => isFalse (by rintro ⟨v, h⟩; cases h)
  | some (.vStr _) => isFalse (by rintro ⟨v, h⟩; cases h)
  | some (.vNum _) => isFalse (by rintro ⟨v, h⟩; cases h)

instance (b : BookRec) : Decidable (ValidBook b) := by
  unfold ValidBook; infer_instance

end Exam

/-! ## Helper lemmas -/

namespace Exam

/-- A destructured field fails the `!x` test exactly when it is missing or
falsy. -/
theorem truthyOpt_eq_false_iff (x : Option JsVal) :
    truthyOpt x = false ↔ missingOrFalsy x := by
  rcases x with _ | v
  · simp [truthyOpt, missingOrFalsy]
  · rcases v with _ | b | n | s
    · simp [truthyOpt, JsVal.truthy, missingOrFalsy]
    · cases b <;> simp [truthyOpt, JsVal.truthy, missingOrFalsy]
    · simp only [truthyOpt, JsVal.truthy, missingOrFalsy, bne_eq_false_iff_eq]
      constructor
      · rintro rfl; simp
      · rintro (h | h | h | h | h) <;> simp_all
    · simp only [truthyOpt, JsVal.truthy, missingOrFalsy, bne_eq_false_iff_eq]
      constructor
      · rintro rfl; simp
      · rintro (h | h | h | h | h) <;> simp_all

/-- The `maxId` fold of the code equals the clamped maximum over an
arbitrary accumulator. -/
theorem maxIdFold_go (books : List BookRec) : ∀ a : Int,
    books.foldl
      (fun mx b => match b.id with
        | some (.vNum n) => if n > mx then n else mx
        | _ => mx) a
      = (numericIds books).foldl max a := by
  induction books with
  | nil => intro a; simp [numericIds]
  | cons b bs ih =>
    intro a
    rcases hb : b.id with _ | v
    · simpa [numericIds, List.filterMap_cons, hb] using ih a
    · rcases v with _ | bb | n | s
      · simpa [numericIds, List.filterMap_cons, hb] using ih a
      · simpa [numericIds, List.filterMap_cons, hb] using ih a
      · have hmax : (if n > a then n else a) = max a n := by
          rcases le_total n a with h | h
          · simp [not_lt.mpr h, max_eq_left h]
          · rcases eq_or_lt_of_le h with rfl | h'
            · simp
            · simp [h', max_eq_right h]
        simp only [numericIds, List.filterMap_cons, hb, List.foldl_cons]
        rw [hmax] at *
        simpa [numericIds] using ih (max a n)
      · simpa [numericIds, List.filterMap_cons, hb] using ih a

/-- The code's `maxId` fold is the spec-side clamped maximum. -/
theorem maxIdFold_eq_specMaxId (books : List BookRec) :
    maxIdFold books = specMaxId books :=
  maxIdFold_go books 0

/-- A max-fold only grows its accumulator. -/
theorem le_foldl_max (l : List Int) : ∀ a : Int, a ≤ l.foldl max a := by
  induction l with
  | nil => intro a; simp
  | cons x xs ih =>
    intro a
    exact le_trans (le_max_left a x) (ih (max a x))

/-- A max-fold bounds every element of the list. -/
theorem mem_le_foldl_max (l : List Int) : ∀ a : Int, ∀ x ∈ l, x ≤ l.foldl max a := by
  induction l with
  | nil => intro a x hx; cases hx
  | cons y ys ih =>
    intro a x hx
    rcases List.mem_cons.mp hx with rfl | hx'
    · exact le_trans (le_max_right a x) (le_foldl_max ys (max a x))
    · exact ih (max a y) x hx'

/-- A max-fold returns its accumulator or an element of the list. -/
theorem foldl_max_mem (l : List Int) : ∀ a : Int,
    l.foldl max a = a ∨ l.foldl max a ∈ l := by
  induction l with
  | nil => intro a; simp
  | cons y ys ih =>
    intro a
    rcases ih (max a y) with h | h
    · rw [List.foldl_cons, h]
      rcases max_cases a y with ⟨h1, _⟩ | ⟨h1, _⟩
      · exact Or.inl h1
      · rw [h1]
        exact Or.inr (List.mem_cons_self y ys)
    · exact Or.inr (List.mem_cons_of_mem y h)

/-- With only nonnegative ids present, `specMaxId` is the genuine maximum:
zero on an empty id list, an upper bound, and attained when ids exist. -/
theorem specMaxId_is_max (books : List BookRec)
    (hnn : ∀ i ∈ numericIds books, 0 ≤ i) :
    (numericIds books = [] → specMaxId books = 0) ∧
    (∀ i ∈ numericIds books, i ≤ specMaxId books) ∧
    (numericIds books ≠ [] → specMaxId books ∈ numericIds books) := by
  refine ⟨?_, ?_, ?_⟩
  · intro h; simp [specMaxId, h]
  · intro i hi; exact mem_le_foldl_max _ 0 i hi
  · intro hne
    rcases foldl_max_mem (numericIds books) 0 with h | h
    · rcases hids : numericIds books with _ | ⟨x, xs⟩
      · exact absurd hids hne
      · have hmem : x ∈ numericIds books := by
          rw [hids]; exact List.mem_cons_self x xs
        have hx0 : 0 ≤ x := hnn x hmem
        have hxle : x ≤ (numericIds books).foldl max 0 := mem_le_foldl_max _ 0 x hmem
        have hx : x = 0 := le_antisymm (by rw [h] at hxle; exact hxle) hx0
        have hsm : specMaxId books = 0 := h
        rw [hsm, ← hx]
        exact List.mem_cons_self x xs
    · exact h

end Exam

namespace Exam

/-- A failing `readBooks` only ever propagates the storage error. -/
theorem readBooks_error_eq (st : FileSt) (e : Err) (h : readBooks st = .error e) :
    e = .storage := by
  rcases st with _ | _ | t
  · cases h
  · injection h with h2
    exact h2.symm
  · rcases t with bs | v <;> cases h

/-- The create-validation test holds exactly on missing-or-falsy fields. -/
theorem createCond_iff (body : ReqBody) :
    (!truthyOpt body.title || !truthyOpt body.author) = true ↔
      missingOrFalsy body.title ∨ missingOrFalsy body.author := by
  rw [Bool.or_eq_true, Bool.not_eq_true', Bool.not_eq_true',
    truthyOpt_eq_false_iff, truthyOpt_eq_false_iff]

/-- `updateParsed` when the body has an allowed key, the read succeeds and
the lookup finds index `idx`. -/
theorem updateParsed_found (i : Int) (body : ReqBody) (st : FileSt)
    (books : List BookRec) (idx : Nat)
    (hbody : hasAllowedField body = true)
    (hread : readBooks st = .ok books)
    (hfind : findBookIdx books i = some idx) :
    updateParsed i body st =
      (.ok (applyUpdates body (books.getD idx default)),
       writeBooks (books.set idx (applyUpdates body (books.getD idx default)))) := by
  unfold updateParsed
  rw [hbody]
  simp only [Bool.not_true, Bool.false_eq_true, if_false]
  rw [hread]
  dsimp only
  rw [hfind]

/-- `updateParsed` when the body has no allowed key. -/
theorem updateParsed_noField (i : Int) (body : ReqBody) (st : FileSt)
    (hbody : hasAllowedField body = false) :
    updateParsed i body st =
      (.error (.validation "At least one of title, author, available must be provided"), st) := by
  unfold updateParsed
  rw [hbody]
  simp only [Bool.not_false]
  rw [if_true]

/-- `updateParsed` when the lookup misses. -/
theorem updateParsed_notFound (i : Int) (body : ReqBody) (st : FileSt)
    (books : List BookRec)
    (hbody : hasAllowedField body = true)
    (hread : readBooks st = .ok books)
    (hfind : findBookIdx books i = none) :
    updateParsed i body st = (.error .notFound, st) := by
  unfold updateParsed
  rw [hbody]
  simp only [Bool.not_true, Bool.false_eq_true, if_false]
  rw [hread]
  dsimp only
  rw [hfind]

/-- `deleteParsed` when the lookup finds index `idx`. -/
theorem deleteParsed_found (i : Int) (st : FileSt)
    (books : List BookRec) (idx : Nat)
    (hread : readBooks st = .ok books)
    (hfind : findBookIdx books i = some idx) :
    deleteParsed i st = (.ok (), writeBooks (books.eraseIdx idx)) := by
  unfold deleteParsed
  rw [hread]
  dsimp only
  rw [hfind]

/-- `deleteParsed` when the lookup misses. -/
theorem deleteParsed_notFound (i : Int) (st : FileSt) (books : List BookRec)
    (hread : readBooks st = .ok books)
    (hfind : findBookIdx books i = none) :
    deleteParsed i st = (.error .notFound, st) := by
  unfold deleteParsed
  rw [hread]
  dsimp only
  rw [hfind]

/-- `PUT /books/:id` with a parsable id runs the post-parse core. -/
theorem updateBook_parsed (idStr : String) (i : Int) (body : ReqBody) (st : FileSt)
    (hid : parseId idStr = some i) :
    updateBook idStr body st = updateParsed i body st := by
  rw [updateBook, hid]

/-- `PUT /books/:id` with an unparsable id. -/
theorem updateBook_noParse (idStr : String) (body : ReqBody) (st : FileSt)
    (hid : parseId idStr = none) :
    updateBook idStr body st = (.error (.validation "Invalid id"), st) := by
  rw [updateBook, hid]

/-- `DELETE /books/:id` with a parsable id runs the post-parse core. -/
theorem deleteBook_parsed (idStr : String) (i : Int) (st : FileSt)
    (hid : parseId idStr = some i) :
    deleteBook idStr st = deleteParsed i st := by
  rw [deleteBook, hid]

/-- `DELETE /books/:id` with an unparsable id. -/
theorem deleteBook_noParse (idStr : String) (st : FileSt)
    (hid : parseId idStr = none) :
    deleteBook idStr st = (.error (.validation "Invalid id"), st) := by
  rw [deleteBook, hid]

end Exam

/-! ## The claims -/

namespace Exam

/-- C2: `load()` returns the empty collection when the backing file does not
exist (not an error); when the file exists but its content fails to parse as
JSON, `load()` propagates an error; when the content parses successfully but
the top-level value is not an array, `load()` returns the empty
collection. -/
theorem claim2_load_asymmetry :
    readBooks .absent = .ok [] ∧
    readBooks .unparseable = .error .storage ∧
    ∀ v : JsVal, readBooks (.parsed (.nonArray v)) = .ok [] :=
  ⟨rfl, rfl, fun _ => rfl⟩

/-- C3: the claim demands that concurrent mutating requests be serialized so
that N simultaneous creates against an empty collection end with records
1..N.  The code has no serialization: under the interleaving
read-read-write-write that the two awaits of each `POST /books` handler
allow, two creates against the empty collection end with a single record
with id 1 (the first create's effect is lost), while the serialized schedule
of the very same two requests ends with ids 1 and 2. -/
theorem claim3_lost_update :
    (runTwo [false, true, false, true]
        (.toRead ⟨some (.vStr "A"), some (.vStr "a"), none⟩)
        (.toRead ⟨some (.vStr "B"), some (.vStr "b"), none⟩) (writeBooks [])
      = writeBooks
          [⟨some (.vNum 1), some (.vStr "B"), some (.vStr "b"), some (.vBool false)⟩]) ∧
    (runTwo [false, false, true, true]
        (.toRead ⟨some (.vStr "A"), some (.vStr "a"), none⟩)
        (.toRead ⟨some (.vStr "B"), some (.vStr "b"), none⟩) (writeBooks [])
      = writeBooks
          [⟨some (.vNum 1), some (.vStr "A"), some (.vStr "a"), some (.vBool false)⟩,
           ⟨some (.vNum 2), some (.vStr "B"), some (.vStr "b"), some (.vBool false)⟩]) :=
  ⟨rfl, rfl⟩

/-- C4: for every stored collection, List-available returns exactly the
subsequence of List-all whose records have `available` strictly equal to the
boolean `true`; records with a missing or non-boolean `available` never
appear, and record order is preserved (the result is a sublist). -/
theorem claim4_available_filter (st : FileSt) (books : List BookRec)
    (h : readBooks st = .ok books) :
    listAll st = .ok books ∧
    listAvailable st = .ok (books.filter (fun b => b.available == some (.vBool true))) ∧
    (books.filter (fun b => b.available == some (.vBool true))).Sublist books ∧
    (∀ b ∈ books.filter (fun b => b.available == some (.vBool true)),
      b.available = some (.vBool true)) ∧
    (∀ b ∈ books, b.available = some (.vBool true) →
      b ∈ books.filter (fun b => b.available == some (.vBool true))) := by
  refine ⟨h, ?_, List.filter_sublist books, ?_, ?_⟩
  · rw [listAvailable, h]
    rfl
  · intro b hb
    exact beq_iff_eq.mp (List.mem_filter.mp hb).2
  · intro b hb hav
    exact List.mem_filter.mpr ⟨hb, beq_iff_eq.mpr hav⟩

/-- C4 witness: at a concrete two-record store, List-available keeps exactly
the record whose `available` is `true`. -/
theorem claim4_available_filter_witness :
    listAvailable (writeBooks
        [⟨some (.vNum 1), some (.vStr "T"), some (.vStr "A"), some (.vBool true)⟩,
         ⟨some (.vNum 2), some (.vStr "U"), some (.vStr "B"), some (.vBool false)⟩])
      = .ok [⟨some (.vNum 1), some (.vStr "T"), some (.vStr "A"), some (.vBool true)⟩] :=
  (claim4_available_filter
    (writeBooks
      [⟨some (.vNum 1), some (.vStr "T"), some (.vStr "A"), some (.vBool true)⟩,
       ⟨some (.vNum 2), some (.vStr "U"), some (.vStr "B"), some (.vBool false)⟩])
    [⟨some (.vNum 1), some (.vStr "T"), some (.vStr "A"), some (.vBool true)⟩,
     ⟨some (.vNum 2), some (.vStr "U"), some (.vStr "B"), some (.vBool false)⟩]
    rfl).2.1

/-- C5 fails as stated: the body `{title: 0, author: "X"}` supplies a title
that is neither missing nor empty, yet Create rejects it with the
ValidationError "title and author are required" (the code tests JavaScript
falsiness, and the number 0 is falsy). -/
theorem claim5_counterexample :
    (createBook ⟨some (.vNum 0), some (.vStr "X"), none⟩ (writeBooks [])).1 =
      .error (.validation "title and author are required") ∧
    some (JsVal.vNum 0) ≠ (none : Option JsVal) ∧
    JsVal.vNum 0 ≠ .vStr "" :=
  ⟨rfl, by decide, by decide⟩

/-- C5 amended: Create returns the ValidationError "title and author are
required" exactly when title or author is missing or falsy (JSON null,
false, 0, or the empty string); otherwise the created record's `available`
equals the supplied value when that value is a boolean, and is false when it
is absent or not a boolean. -/
theorem claim5_amended (body : ReqBody) (st : FileSt) :
    ((createBook body st).1 = .error (.validation "title and author are required") ↔
      missingOrFalsy body.title ∨ missingOrFalsy body.author) ∧
    (∀ books, readBooks st = .ok books →
      ¬(missingOrFalsy body.title ∨ missingOrFalsy body.author) →
      ∃ nb st', createBook body st = (.ok nb, st') ∧
        (∀ b : Bool, body.available = some (.vBool b) → nb.available = some (.vBool b)) ∧
        ((∀ b : Bool, body.available ≠ some (.vBool b)) →
          nb.available = some (.vBool false))) := by
  constructor
  · constructor
    · intro hres
      by_cases hcond : (!truthyOpt body.title || !truthyOpt body.author) = true
      · exact (createCond_iff body).mp hcond
      · exfalso
        rw [createBook, if_neg hcond] at hres
        rcases hr : readBooks st with e | bs
        · rw [hr] at hres
          have : e = .storage := readBooks_error_eq st e hr
          subst this
          cases hres
        · rw [hr] at hres
          cases hres
    · intro hmiss
      have hcond := (createCond_iff body).mpr hmiss
      rw [createBook, if_pos hcond]
  · intro books hread hnot
    have hcond : (!truthyOpt body.title || !truthyOpt body.author) = false :=
      Bool.not_eq_true _ ▸ mt (createCond_iff body).mp hnot
    refine ⟨mkNewBook body books, writeBooks (books ++ [mkNewBook body books]), ?_, ?_, ?_⟩
    · rw [createBook, if_neg (by rw [hcond]; simp), hread]
    · intro b hb
      simp [mkNewBook, hb]
    · intro hnb
      rcases hav : body.available with _ | v
      · simp [mkNewBook, hav]
      · rcases v with _ | b | n | str
        · simp [mkNewBook, hav]
        · exact absurd hav (hnb b)
        · simp [mkNewBook, hav]
        · simp [mkNewBook, hav]

/-- C5 amended witness: a valid body with a numeric `available` creates a
record whose `available` is false. -/
theorem claim5_amended_witness :
    ∃ nb st', createBook ⟨some (.vStr "T"), some (.vStr "A"), some (.vNum 5)⟩ .absent
        = (.ok nb, st') ∧ nb.available = some (.vBool false) := by
  obtain ⟨nb, st', h1, _, h3⟩ :=
    (claim5_amended ⟨some (.vStr "T"), some (.vStr "A"), some (.vNum 5)⟩ .absent).2
      [] rfl (by decide)
  exact ⟨nb, st', h1, h3 (by decide)⟩

end Exam

namespace Exam

/-- What `applyUpdates` does to each field: the id always survives, each of
the other fields is overwritten with its coerced value exactly when the body
supplies it. -/
theorem applyUpdates_fields (body : ReqBody) (b : BookRec) :
    (applyUpdates body b).id = b.id ∧
    (applyUpdates body b).title = (match body.title with
      | some v => some (.vStr v.toText) | none => b.title) ∧
    (applyUpdates body b).author = (match body.author with
      | some v => some (.vStr v.toText) | none => b.author) ∧
    (applyUpdates body b).available = (match body.available with
      | some v => some (.vBool v.truthy) | none => b.available) := by
  rcases hT : body.title with _ | v <;> rcases hA : body.author with _ | w <;>
    rcases hV : body.available with _ | u <;>
    simp [applyUpdates, hT, hA, hV]

/-- C6: for every successful Update, only the fields supplied in the body
are overwritten (title/author coerced to text, available to boolean); every
field not supplied retains its prior value, the record's id is unchanged,
and every other record in the collection is unchanged. -/
theorem claim6_update_frame
    (idStr : String) (i : Int) (body : ReqBody) (st : FileSt)
    (books : List BookRec) (idx : Nat) (b0 : BookRec)
    (hid : parseId idStr = some i)
    (hbody : hasAllowedField body = true)
    (hread : readBooks st = .ok books)
    (hfind : findBookIdx books i = some idx)
    (hb0 : books.get? idx = some b0) :
    ∃ b', updateBook idStr body st = (.ok b', writeBooks (books.set idx b')) ∧
      b'.id = b0.id ∧
      (∀ v, body.title = some v → b'.title = some (.vStr v.toText)) ∧
      (∀ v, body.author = some v → b'.author = some (.vStr v.toText)) ∧
      (∀ v, body.available = some v → b'.available = some (.vBool v.truthy)) ∧
      (body.title = none → b'.title = b0.title) ∧
      (body.author = none → b'.author = b0.author) ∧
      (body.available = none → b'.available = b0.available) ∧
      (books.set idx b').length = books.length ∧
      (∀ j, j ≠ idx → (books.set idx b').get? j = books.get? j) := by
  have hgetD : books.getD idx default = b0 := by
    rw [List.getD_eq_getElem?_getD, ← List.get?_eq_getElem?, hb0]
    rfl
  obtain ⟨hI, hT, hA, hV⟩ := applyUpdates_fields body b0
  refine ⟨applyUpdates body b0, ?_, hI, ?_, ?_, ?_, ?_, ?_, ?_, books.length_set idx _, ?_⟩
  · rw [updateBook_parsed idStr i body st hid,
      updateParsed_found i body st books idx hbody hread hfind, hgetD]
  · intro v hv
    rw [hT, hv]
  · intro v hv
    rw [hA, hv]
  · intro v hv
    rw [hV, hv]
  · intro hv
    rw [hT, hv]
  · intro hv
    rw [hA, hv]
  · intro hv
    rw [hV, hv]
  · intro j hj
    simp only [List.get?_eq_getElem?]
    exact List.getElem?_set_ne (fun h => hj h.symm)

/-- C6 witness: updating only the title of a stored record overwrites the
title and keeps id, author and availability. -/
theorem claim6_update_frame_witness :
    ∃ b', updateBook "1" ⟨some (.vStr "New"), none, none⟩
        (writeBooks [⟨some (.vNum 1), some (.vStr "Old"), some (.vStr "A"), some (.vBool true)⟩])
      = (.ok b', writeBooks
          ([⟨some (.vNum 1), some (.vStr "Old"), some (.vStr "A"), some (.vBool true)⟩].set 0 b')) ∧
      b'.id = some (.vNum 1) ∧ b'.title = some (.vStr "New") ∧
      b'.author = some (.vStr "A") ∧ b'.available = some (.vBool true) := by
  obtain ⟨b', heq, hid2, htS, _, _, _, haN, hvN, _, _⟩ :=
    claim6_update_frame "1" 1 ⟨some (.vStr "New"), none, none⟩
      (writeBooks [⟨some (.vNum 1), some (.vStr "Old"), some (.vStr "A"), some (.vBool true)⟩])
      [⟨some (.vNum 1), some (.vStr "Old"), some (.vStr "A"), some (.vBool true)⟩] 0
      ⟨some (.vNum 1), some (.vStr "Old"), some (.vStr "A"), some (.vBool true)⟩
      (by decide) rfl rfl (by decide) rfl
  exact ⟨b', heq, hid2, htS (.vStr "New") rfl, haN rfl, hvN rfl⟩

/-- C7: every failing Update leaves the stored collection unchanged: an id
absent from the collection yields NotFoundError with the collection
unmodified, and a body containing none of title, author, available yields a
ValidationError whose outcome is independent of storage, before anything is
written. -/
theorem claim7_failing_update :
    (∀ idStr i body st books, parseId idStr = some i →
      hasAllowedField body = true → readBooks st = .ok books →
      findBookIdx books i = none →
      updateBook idStr body st = (.error .notFound, st)) ∧
    (∀ idStr body st, hasAllowedField body = false →
      (∃ msg, (updateBook idStr body st).1 = .error (.validation msg)) ∧
      (updateBook idStr body st).2 = st ∧
      (∀ st', (updateBook idStr body st').1 = (updateBook idStr body st).1)) := by
  constructor
  · intro idStr i body st books hid hbody hread hfind
    rw [updateBook_parsed idStr i body st hid,
      updateParsed_notFound i body st books hbody hread hfind]
  · intro idStr body st hbody
    rcases hid : parseId idStr with _ | i
    · exact ⟨⟨"Invalid id", by rw [updateBook_noParse idStr body st hid]⟩,
        by rw [updateBook_noParse idStr body st hid],
        fun st' => by rw [updateBook_noParse idStr body st hid,
          updateBook_noParse idStr body st' hid]⟩
    · refine ⟨⟨"At least one of title, author, available must be provided", ?_⟩, ?_, ?_⟩
      · rw [updateBook_parsed idStr i body st hid, updateParsed_noField i _ _ hbody]
      · rw [updateBook_parsed idStr i body st hid, updateParsed_noField i _ _ hbody]
      · intro st'
        rw [updateBook_parsed idStr i body st hid, updateParsed_noField i _ _ hbody,
          updateBook_parsed idStr i body st' hid, updateParsed_noField i _ _ hbody]

/-- C7 witness: an unknown id 404s and leaves the empty store untouched; a
body with none of the three keys is rejected even on an unreadable store. -/
theorem claim7_failing_update_witness :
    updateBook "1" ⟨some (.vStr "T"), none, none⟩ (writeBooks [])
      = (.error .notFound, writeBooks []) ∧
    ∃ msg, (updateBook "9" ⟨none, none, none⟩ .unparseable).1 = .error (.validation msg) := by
  constructor
  · exact claim7_failing_update.1 "1" 1 ⟨some (.vStr "T"), none, none⟩ (writeBooks []) []
      (by decide) rfl rfl rfl
  · exact (claim7_failing_update.2 "9" ⟨none, none, none⟩ .unparseable rfl).1

/-- C8: for every id path parameter string that does not parse as an
integer, Update and Delete return the ValidationError "Invalid id" without
consulting or modifying storage; for every string that does parse, the
handlers continue with exactly the parsed integer, which is what the lookup
uses. -/
theorem claim8_parse_gate :
    (∀ s body st, parseId s = none →
      updateBook s body st = (.error (.validation "Invalid id"), st) ∧
      deleteBook s st = (.error (.validation "Invalid id"), st)) ∧
    (∀ s i body st, parseId s = some i →
      updateBook s body st = updateParsed i body st ∧
      deleteBook s st = deleteParsed i st) ∧
    (∀ s i st books, parseId s = some i → readBooks st = .ok books →
      findBookIdx books i = none → deleteBook s st = (.error .notFound, st)) := by
  refine ⟨?_, ?_, ?_⟩
  · intro s body st h
    exact ⟨updateBook_noParse s body st h, deleteBook_noParse s st h⟩
  · intro s i body st h
    exact ⟨updateBook_parsed s i body st h, deleteBook_parsed s i st h⟩
  · intro s i st books h hread hfind
    rw [deleteBook_parsed s i st h, deleteParsed_notFound i st books hread hfind]

/-- C8 witness: a non-numeric id is rejected with storage untouched (even
unreadable storage), and a string with a parsable integer head is looked up
under that integer. -/
theorem claim8_parse_gate_witness :
    updateBook "abc" ⟨none, none, some .vNull⟩ .unparseable
      = (.error (.validation "Invalid id"), .unparseable) ∧
    deleteBook " 12xy" (writeBooks []) = deleteParsed 12 (writeBooks []) ∧
    deleteBook "7" (writeBooks []) = (.error .notFound, writeBooks []) := by
  refine ⟨?_, ?_, ?_⟩
  · exact (claim8_parse_gate.1 "abc" ⟨none, none, some .vNull⟩ .unparseable (by decide)).1
  · exact (claim8_parse_gate.2.1 " 12xy" 12 ⟨none, none, none⟩ (writeBooks []) (by decide)).2
  · exact claim8_parse_gate.2.2 "7" 7 (writeBooks []) [] (by decide) rfl rfl

end Exam

namespace Exam

/-- C1 fails as stated, in both halves.  With stored ids 1 and 5 (a gapped
but data-model-valid collection, as arises after deletions), deleting the
record holding the maximum id 5 and then creating assigns id 2, not the
just-deleted 5.  And on a collection whose only numeric id is -5, the
maximum numeric id is -5 yet the assigned id is 1, not (-5)+1: the fold
starts at 0, so it clamps negative maxima. -/
theorem claim1_counterexample :
    ((deleteBook "5" (writeBooks
        [⟨some (.vNum 1), some (.vStr "t1"), some (.vStr "a1"), some (.vBool false)⟩,
         ⟨some (.vNum 5), some (.vStr "t5"), some (.vStr "a5"), some (.vBool false)⟩])).1
      = .ok ()) ∧
    (∃ nb st',
      createBook ⟨some (.vStr "t"), some (.vStr "a"), none⟩
        (deleteBook "5" (writeBooks
          [⟨some (.vNum 1), some (.vStr "t1"), some (.vStr "a1"), some (.vBool false)⟩,
           ⟨some (.vNum 5), some (.vStr "t5"), some (.vStr "a5"), some (.vBool false)⟩])).2
        = (.ok nb, st') ∧
      nb.id = some (.vNum 2) ∧ (2 : Int) ≠ 5) ∧
    (∃ nb st',
      createBook ⟨some (.vStr "t"), some (.vStr "a"), none⟩
        (writeBooks [⟨some (.vNum (-5)), none, none, none⟩]) = (.ok nb, st') ∧
      nb.id = some (.vNum 1) ∧ (1 : Int) ≠ (-5) + 1) := by
  refine ⟨rfl, ⟨_, _, rfl, rfl, by decide⟩, ⟨_, _, rfl, rfl, by decide⟩⟩

/-- C1 amended: for every collection whose numeric ids are nonnegative (the
data model requires positive ids), Create assigns the id (maximum numeric id
among existing records, or 0 if the collection is empty or has no numeric
ids) + 1; and after deleting the record holding the current maximum id, a
new Create assigns exactly the deleted id provided the deleted id exceeds
the maximum id of the remaining records by exactly one — in particular
whenever the ids are a consecutive run 1..n. -/
theorem claim1_amended
    (body : ReqBody) (st : FileSt) (books : List BookRec)
    (hread : readBooks st = .ok books)
    (ht : truthyOpt body.title = true) (ha : truthyOpt body.author = true)
    (hnn : ∀ i ∈ numericIds books, 0 ≤ i) :
    (∃ nb st', createBook body st = (.ok nb, st') ∧
      nb.id = some (.vNum (specMaxId books + 1)) ∧
      (numericIds books = [] → specMaxId books = 0) ∧
      (∀ i ∈ numericIds books, i ≤ specMaxId books) ∧
      (numericIds books ≠ [] → specMaxId books ∈ numericIds books)) ∧
    (∀ idStr m idx, parseId idStr = some m → m = specMaxId books →
      findBookIdx books m = some idx →
      specMaxId (books.eraseIdx idx) + 1 = m →
      (deleteBook idStr st).1 = .ok () ∧
      ∃ nb, (createBook body (deleteBook idStr st).2).1 = .ok nb ∧
        nb.id = some (.vNum m)) := by
  have hcond : (!truthyOpt body.title || !truthyOpt body.author) = false := by
    rw [ht, ha]
    rfl
  have hcreate : ∀ bs : List BookRec,
      createBook body (writeBooks bs) = (.ok (mkNewBook body bs),
        writeBooks (bs ++ [mkNewBook body bs])) := by
    intro bs
    rw [createBook, if_neg (by rw [hcond]; simp)]
    rfl
  obtain ⟨h0, h1, h2⟩ := specMaxId_is_max books hnn
  constructor
  · refine ⟨mkNewBook body books, writeBooks (books ++ [mkNewBook body books]),
      ?_, ?_, h0, h1, h2⟩
    · rw [createBook, if_neg (by rw [hcond]; simp), hread]
    · simp only [mkNewBook]
      rw [maxIdFold_eq_specMaxId]
  · intro idStr m idx hid hmax hfind hgap
    have hdel : deleteBook idStr st = (.ok (), writeBooks (books.eraseIdx idx)) := by
      rw [deleteBook_parsed idStr m st hid, deleteParsed_found m st books idx hread hfind]
    rw [hdel]
    refine ⟨rfl, mkNewBook body (books.eraseIdx idx), ?_, ?_⟩
    · rw [hcreate (books.eraseIdx idx)]
    · simp only [mkNewBook]
      rw [maxIdFold_eq_specMaxId, hgap]

/-- C1 amended witness: on the consecutive store with ids 1 and 2, Create
assigns 3; and deleting the max id 2 then creating assigns 2 again. -/
theorem claim1_amended_witness :
    (∃ nb st', createBook ⟨some (.vStr "t"), some (.vStr "a"), none⟩
        (writeBooks [⟨some (.vNum 1), some (.vStr "x"), some (.vStr "y"), some (.vBool false)⟩,
                     ⟨some (.vNum 2), some (.vStr "v"), some (.vStr "w"), some (.vBool true)⟩])
        = (.ok nb, st') ∧ nb.id = some (.vNum 3)) ∧
    ((deleteBook "2" (writeBooks
        [⟨some (.vNum 1), some (.vStr "x"), some (.vStr "y"), some (.vBool false)⟩,
         ⟨some (.vNum 2), some (.vStr "v"), some (.vStr "w"), some (.vBool true)⟩])).1 = .ok () ∧
      ∃ nb, (createBook ⟨some (.vStr "t"), some (.vStr "a"), none⟩
          (deleteBook "2" (writeBooks
            [⟨some (.vNum 1), some (.vStr "x"), some (.vStr "y"), some (.vBool false)⟩,
             ⟨some (.vNum 2), some (.vStr "v"), some (.vStr "w"), some (.vBool true)⟩])).2).1
        = .ok nb ∧ nb.id = some (.vNum 2)) := by
  have h := claim1_amended ⟨some (.vStr "t"), some (.vStr "a"), none⟩
    (writeBooks [⟨some (.vNum 1), some (.vStr "x"), some (.vStr "y"), some (.vBool false)⟩,
                 ⟨some (.vNum 2), some (.vStr "v"), some (.vStr "w"), some (.vBool true)⟩])
    [⟨some (.vNum 1), some (.vStr "x"), some (.vStr "y"), some (.vBool false)⟩,
     ⟨some (.vNum 2), some (.vStr "v"), some (.vStr "w"), some (.vBool true)⟩]
    rfl rfl rfl (by decide)
  constructor
  · obtain ⟨nb, st', heq, hid2, _⟩ := h.1
    exact ⟨nb, st', heq, by rw [hid2]; decide⟩
  · obtain ⟨hdel, nb, hok, hid2⟩ := h.2 "2" 2 1 (by decide) (by decide) (by decide) (by decide)
    exact ⟨hdel, nb, hok, hid2⟩

end Exam

/-! ## Round-trip of the persisted format (claim C9) -/

namespace Exam

/-- `hexVal` inverts `toHexChar` on one hex digit. -/
theorem hexVal_toHexChar (d : Nat) (h : d < 16) : hexVal (toHexChar d) = some d := by
  interval_cases d <;> decide

/-- A plain character (neither quote nor backslash) parses as itself. -/
theorem parseStrAux_plain (c : Char) (rest : List Char)
    (h1 : c ≠ '"') (h2 : c ≠ '\\') :
    parseStrAux (c :: rest) = (parseStrAux rest).map (fun p => (c :: p.1, p.2)) := by
  rw [parseStrAux.eq_def]
  split <;> simp_all

/-- Parsing one escaped character undoes `escChar`. -/
theorem parseStrAux_escChar (c : Char) (rest : List Char) :
    parseStrAux (escChar c ++ rest) = (parseStrAux rest).map (fun p => (c :: p.1, p.2)) := by
  unfold escChar
  split_ifs with h1 h2 h3 h4 h5 h6 h7 h8
  · subst h1; rfl
  · subst h2; rfl
  · subst h3; rfl
  · subst h4; rfl
  · subst h5; rfl
  · subst h6; rfl
  · subst h7; rfl
  · have hdiv : c.toNat / 16 < 16 := by omega
    have hmod : c.toNat % 16 < 16 := by omega
    have hstep : parseStrAux ('\\' :: 'u' :: '0' :: '0' :: toHexChar (c.toNat / 16) ::
        toHexChar (c.toNat % 16) :: rest) =
      (match hexVal '0', hexVal '0', hexVal (toHexChar (c.toNat / 16)),
          hexVal (toHexChar (c.toNat % 16)) with
      | some v1, some v2, some v3, some v4 =>
        (parseStrAux rest).map
          (fun p => (Char.ofNat (((v1 * 16 + v2) * 16 + v3) * 16 + v4) :: p.1, p.2))
      | _, _, _, _ => none) := rfl
    show parseStrAux ('\\' :: 'u' :: '0' :: '0' :: toHexChar (c.toNat / 16) ::
        toHexChar (c.toNat % 16) :: rest) = _
    rw [hstep, hexVal_toHexChar _ hdiv, hexVal_toHexChar _ hmod,
      show hexVal '0' = some 0 from rfl]
    have harith : ((0 * 16 + 0) * 16 + c.toNat / 16) * 16 + c.toNat % 16 = c.toNat := by
      omega
    show Option.map
        (fun p => (Char.ofNat (((0 * 16 + 0) * 16 + c.toNat / 16) * 16 + c.toNat % 16)
          :: p.1, p.2)) (parseStrAux rest) = _
    simp only [harith, Char.ofNat_toNat]
  · show parseStrAux (c :: rest) = _
    exact parseStrAux_plain c rest h1 h2

/-- Parsing an escaped run stops exactly at the closing quote. -/
theorem parseStrAux_escList (cs : List Char) : ∀ rest : List Char,
    parseStrAux (escList cs ++ '"' :: rest) = some (cs, rest) := by
  induction cs with
  | nil => intro rest; rfl
  | cons c cs ih =>
    intro rest
    show parseStrAux (escChar c ++ escList cs ++ '"' :: rest) = _
    rw [List.append_assoc, parseStrAux_escChar, ih rest]
    rfl

end Exam

namespace Exam

/-- The digit character of `k < 10` carries exactly `k` and is a digit. -/
theorem digitChar_spec (k : Nat) (h : k < 10) :
    (Char.ofNat (48 + k)).toNat = 48 + k ∧ (Char.ofNat (48 + k)).isDigit = true := by
  interval_cases k <;> exact ⟨by decide, by decide⟩

/-- A digit character is not the minus sign. -/
theorem digit_ne_minus (c : Char) (h : c.isDigit = true) : c ≠ '-' := by
  intro he
  subst he
  exact absurd h (by decide)

/-- The accumulator of `natChars` only rides along on the right. -/
theorem natChars_append (n : Nat) : ∀ acc : List Char,
    natChars n acc = natChars n [] ++ acc := by
  induction n using Nat.strong_induction_on with
  | _ n ih =>
    intro acc
    rw [natChars.eq_def]
    conv_rhs => rw [natChars.eq_def]
    by_cases h : n < 10
    · simp [h]
    · simp only [dif_neg h]
      have hlt : n / 10 < n := Nat.div_lt_self (by omega) (by omega)
      rw [ih (n / 10) hlt (Char.ofNat (48 + n % 10) :: acc),
        ih (n / 10) hlt [Char.ofNat (48 + n % 10)]]
      simp

/-- One unfolding step of `natChars`, last digit at the end. -/
theorem natChars_unfold (n : Nat) :
    natChars n [] = (if n < 10 then [] else natChars (n / 10) []) ++
      [Char.ofNat (48 + n % 10)] := by
  rw [natChars.eq_def]
  by_cases h : n < 10
  · simp [h, Nat.mod_eq_of_lt h]
  · simp only [dif_neg h, if_neg h]
    exact natChars_append (n / 10) [Char.ofNat (48 + n % 10)]

theorem natChars_ne_nil (n : Nat) : natChars n [] ≠ [] := by
  rw [natChars_unfold]
  simp

/-- Every character `natChars` emits is a digit. -/
theorem natChars_digits (n : Nat) : ∀ c ∈ natChars n [], c.isDigit = true := by
  induction n using Nat.strong_induction_on with
  | _ n ih =>
    rw [natChars_unfold]
    intro c hc
    rw [List.mem_append] at hc
    rcases hc with hc | hc
    · by_cases h : n < 10
      · simp [h] at hc
      · exact ih (n / 10) (Nat.div_lt_self (by omega) (by omega)) c (by simpa [h] using hc)
    · rw [List.mem_singleton] at hc
      subst hc
      exact (digitChar_spec (n % 10) (Nat.mod_lt _ (by omega))).2

/-- Folding the digits of `n` back up recovers `n`. -/
theorem foldl_natChars (n : Nat) :
    (natChars n []).foldl (fun a c => 10 * a + (c.toNat - 48)) 0 = n := by
  induction n using Nat.strong_induction_on with
  | _ n ih =>
    rw [natChars_unfold, List.foldl_append]
    by_cases h : n < 10
    · simp only [if_pos h, List.foldl_nil, List.foldl_cons]
      rw [(digitChar_spec (n % 10) (Nat.mod_lt _ (by omega))).1]
      omega
    · simp only [if_neg h, List.foldl_cons, List.foldl_nil]
      rw [ih (n / 10) (Nat.div_lt_self (by omega) (by omega)),
        (digitChar_spec (n % 10) (Nat.mod_lt _ (by omega))).1]
      omega

/-- `natChars` output decomposes as a digit followed by a tail. -/
theorem natChars_cons (m : Nat) :
    ∃ c t, natChars m [] = c :: t ∧ c.isDigit = true := by
  rcases h : natChars m [] with _ | ⟨c, t⟩
  · exact absurd h (natChars_ne_nil m)
  · refine ⟨c, t, rfl, natChars_digits m c ?_⟩
    rw [h]
    exact List.mem_cons_self c t

/-- `parseNatAux` folds exactly a digit run, stopping at a non-digit. -/
theorem parseNatAux_run (ds : List Char) : ∀ (acc : Nat) (rest : List Char),
    (∀ c ∈ ds, c.isDigit = true) →
    (∀ c t, rest = c :: t → c.isDigit = false) →
    parseNatAux (ds ++ rest) acc =
      (ds.foldl (fun a c => 10 * a + (c.toNat - 48)) acc, rest) := by
  induction ds with
  | nil =>
    intro acc rest _ hrest
    rcases rest with _ | ⟨c, t⟩
    · rfl
    · show parseNatAux (c :: t) acc = (acc, c :: t)
      simp [parseNatAux, hrest c t rfl]
  | cons d ds ih =>
    intro acc rest hds hrest
    have hd : d.isDigit = true := hds d (List.mem_cons_self d ds)
    show parseNatAux (d :: (ds ++ rest)) acc = _
    rw [show parseNatAux (d :: (ds ++ rest)) acc =
        (if d.isDigit then parseNatAux (ds ++ rest) (10 * acc + (d.toNat - 48))
         else (acc, d :: (ds ++ rest))) from rfl,
      if_pos hd,
      ih (10 * acc + (d.toNat - 48)) rest
        (fun c hc => hds c (List.mem_cons_of_mem d hc)) hrest]
    rfl

/-- The integer codec round-trip: `parseIntChars` inverts `intChars` when the
remainder does not begin with a digit. -/
theorem parseIntChars_intChars (i : Int) (rest : List Char)
    (hrest : ∀ c t, rest = c :: t → c.isDigit = false) :
    parseIntChars (intChars i ++ rest) = some (i, rest) := by
  obtain ⟨c0, t0, hm0, hc0⟩ := natChars_cons i.natAbs
  have htdig : ∀ c ∈ t0, c.isDigit = true := fun c hc =>
    natChars_digits i.natAbs c (by rw [hm0]; exact List.mem_cons_of_mem c0 hc)
  have hfold : t0.foldl (fun a c => 10 * a + (c.toNat - 48)) (c0.toNat - 48) = i.natAbs := by
    have := foldl_natChars i.natAbs
    rw [hm0, List.foldl_cons] at this
    simpa using this
  have hrun : parseNatAux (t0 ++ rest) (c0.toNat - 48) = (i.natAbs, rest) := by
    rw [parseNatAux_run t0 (c0.toNat - 48) rest htdig hrest, hfold]
  by_cases hneg : i < 0
  · have harg : intChars i ++ rest = '-' :: (c0 :: (t0 ++ rest)) := by
      rw [intChars, if_pos hneg, hm0]
      simp
    rw [harg]
    rw [show parseIntChars ('-' :: (c0 :: (t0 ++ rest))) =
        (if c0.isDigit then
          (match parseNatAux (t0 ++ rest) (c0.toNat - 48) with
           | (n, r) => some (-(n : Int), r))
         else none) from rfl,
      if_pos hc0, hrun]
    have hval : -((i.natAbs : Nat) : Int) = i := by omega
    show some (-((i.natAbs : Nat) : Int), rest) = some (i, rest)
    rw [hval]
  · have harg : intChars i ++ rest = c0 :: (t0 ++ rest) := by
      rw [intChars, if_neg hneg, hm0]
      simp
    rw [harg]
    rw [show parseIntChars (c0 :: (t0 ++ rest)) =
        (if c0 = '-' then
          (match t0 ++ rest with
           | [] => none
           | d :: ds =>
             if d.isDigit then
               match parseNatAux ds (d.toNat - 48) with
               | (n, r) => some (-(n : Int), r)
             else none)
         else if c0.isDigit then
          (match parseNatAux (t0 ++ rest) (c0.toNat - 48) with
           | (n, r) => some ((n : Int), r))
         else none) from rfl,
      if_neg (digit_ne_minus c0 hc0), if_pos hc0, hrun]
    have hval : ((i.natAbs : Nat) : Int) = i := by omega
    show some (((i.natAbs : Nat) : Int), rest) = some (i, rest)
    rw [hval]

end Exam

namespace Exam

theorem skipWs_cons_ws (c : Char) (l : List Char) (h : isWsChar c = true) :
    skipWs (c :: l) = skipWs l := by
  rw [skipWs, if_pos h]

theorem skipWs_cons_not (c : Char) (l : List Char) (h : isWsChar c = false) :
    skipWs (c :: l) = c :: l := by
  rw [skipWs, if_neg (by rw [h]; simp)]

/-- A digit is not whitespace. -/
theorem digit_not_ws (c : Char) (h : c.isDigit = true) : isWsChar c = false := by
  have h1 : c ≠ ' ' := by intro he; subst he; exact absurd h (by decide)
  have h2 : c ≠ '\n' := by intro he; subst he; exact absurd h (by decide)
  have h3 : c ≠ '\t' := by intro he; subst he; exact absurd h (by decide)
  have h4 : c ≠ '\r' := by intro he; subst he; exact absurd h (by decide)
  simp [isWsChar, h1, h2, h3, h4]

/-- A digit is none of the characters that start another JSON token. -/
theorem digit_ne_starters (c : Char) (h : c.isDigit = true) :
    c ≠ '"' ∧ c ≠ 't' ∧ c ≠ 'f' ∧ c ≠ 'n' ∧ c ≠ ',' ∧ c ≠ ']' ∧ c ≠ '}' := by
  refine ⟨?_, ?_, ?_, ?_, ?_, ?_, ?_⟩ <;>
    (intro he; subst he; exact absurd h (by decide))

/-- A value whose text starts with a sign or digit parses as a number. -/
theorem parseJVal_num_dispatch (c : Char) (t : List Char)
    (h1 : c ≠ '"') (h2 : c ≠ 't') (h3 : c ≠ 'f') (h4 : c ≠ 'n') :
    parseJVal (c :: t) = (parseIntChars (c :: t)).map (fun p => (.vNum p.1, p.2)) := by
  rw [parseJVal]
  rw [if_neg h1, if_neg h2, if_neg h3, if_neg h4]

/-- The value codec round-trip: `parseJVal` inverts `jvalChars` when the
remainder does not begin with a digit. -/
theorem parseJVal_jvalChars (v : JsVal) (rest : List Char)
    (hrest : ∀ c t, rest = c :: t → c.isDigit = false) :
    parseJVal (jvalChars v ++ rest) = some (v, rest) := by
  rcases v with _ | b | n | str
  · rfl
  · cases b <;> rfl
  · rcases hn : intChars n with _ | ⟨c0, t0⟩
    · exfalso
      rw [intChars] at hn
      by_cases hneg : n < 0
      · rw [if_pos hneg] at hn
        cases hn
      · rw [if_neg hneg] at hn
        exact natChars_ne_nil n.natAbs hn
    · have hc0 : c0 = '-' ∨ c0.isDigit = true := by
        rw [intChars] at hn
        by_cases hneg : n < 0
        · rw [if_pos hneg] at hn
          exact Or.inl (List.cons.injEq .. ▸ hn).1.symm
        · rw [if_neg hneg] at hn
          obtain ⟨c1, t1, he, hd⟩ := natChars_cons n.natAbs
          rw [he] at hn
          obtain ⟨rfl, rfl⟩ := (List.cons.injEq .. ▸ hn) |>.imp id id
          exact Or.inr hd
      have hne : c0 ≠ '"' ∧ c0 ≠ 't' ∧ c0 ≠ 'f' ∧ c0 ≠ 'n' := by
        rcases hc0 with rfl | hd
        · exact ⟨by decide, by decide, by decide, by decide⟩
        · obtain ⟨a1, a2, a3, a4, _⟩ := digit_ne_starters c0 hd
          exact ⟨a1, a2, a3, a4⟩
      show parseJVal (jvalChars (.vNum n) ++ rest) = _
      rw [jvalChars, hn, List.cons_append,
        parseJVal_num_dispatch c0 (t0 ++ rest) hne.1 hne.2.1 hne.2.2.1 hne.2.2.2,
        show c0 :: (t0 ++ rest) = (c0 :: t0) ++ rest from rfl, ← hn,
        parseIntChars_intChars n rest hrest]
      rfl
  · show parseJVal ('"' :: (escList str.data ++ ['"'] ++ rest)) = _
    rw [List.append_assoc]
    rw [show parseJVal ('"' :: (escList str.data ++ (['"'] ++ rest))) =
      (parseStrAux (escList str.data ++ ('"' :: rest))).map
        (fun p => (.vStr ⟨p.1⟩, p.2)) from rfl]
    rw [parseStrAux_escList]
    rfl

end Exam

namespace Exam

/-- The head of a rendered value is never whitespace. -/
theorem jvalChars_head (v : JsVal) :
    ∃ c t, jvalChars v = c :: t ∧ isWsChar c = false := by
  rcases v with _ | b | n | str
  · exact ⟨'n', _, rfl, by decide⟩
  · cases b
    · exact ⟨'f', _, rfl, by decide⟩
    · exact ⟨'t', _, rfl, by decide⟩
  · rw [jvalChars, intChars]
    by_cases hneg : n < 0
    · rw [if_pos hneg]
      exact ⟨'-', _, rfl, by decide⟩
    · rw [if_neg hneg]
      obtain ⟨c, t, he, hd⟩ := natChars_cons n.natAbs
      exact ⟨c, t, he, digit_not_ws c hd⟩
  · exact ⟨'"', _, rfl, by decide⟩

/-- The field codec round-trip: one `"key": value` item parses back, for a
remainder that does not begin with a digit. -/
theorem parseField_fieldChars (k : String) (v : JsVal) (rest : List Char)
    (hrest : ∀ c t, rest = c :: t → c.isDigit = false) :
    parseField (fieldChars (k, v) ++ rest) = some ((k, v), rest) := by
  have harg : fieldChars (k, v) ++ rest =
      '"' :: (escList k.data ++ ('"' :: ':' :: ' ' :: (jvalChars v ++ rest))) := by
    rw [fieldChars]
    simp
  rw [harg]
  rw [show parseField ('"' :: (escList k.data ++ ('"' :: ':' :: ' ' :: (jvalChars v ++ rest)))) =
      (match parseStrAux (escList k.data ++ ('"' :: ':' :: ' ' :: (jvalChars v ++ rest))) with
       | none => none
       | some (key, rest1) =>
         match skipWs rest1 with
         | [] => none
         | c2 :: rest2 =>
           if c2 = ':' then
             match parseJVal (skipWs rest2) with
             | none => none
             | some (w, rest3) => some ((⟨key⟩, w), rest3)
           else none) from rfl]
  rw [parseStrAux_escList]
  obtain ⟨c, t, hv, hws⟩ := jvalChars_head v
  have hskip : skipWs (jvalChars v ++ rest) = jvalChars v ++ rest := by
    rw [hv, List.cons_append, skipWs_cons_not c (t ++ rest) hws]
  show (match parseJVal (skipWs (jvalChars v ++ rest)) with
       | none => none
       | some (w, rest3) => some ((⟨k.data⟩, w), rest3)) = some ((k, v), rest)
  rw [hskip, parseJVal_jvalChars v rest hrest]

end Exam

namespace Exam

/-- The fields of an object parse back as a list, up to the closing
brace. -/
theorem parseFieldsAux_run (kvs : List (String × JsVal)) :
    ∀ (kv : String × JsVal) (fuel : Nat) (rest : List Char),
    kvs.length < fuel →
    parseFieldsAux fuel
        (fieldChars kv ++ (restFieldsChars kvs ++ ('\n' :: ' ' :: ' ' :: '}' :: rest))) =
      some (kv :: kvs, rest) := by
  induction kvs with
  | nil =>
    intro kv fuel rest hfuel
    rcases fuel with _ | fuel
    · omega
    · rcases kv with ⟨k, v⟩
      rw [show restFieldsChars [] = [] from rfl, List.nil_append]
      rw [show parseFieldsAux (fuel + 1)
          (fieldChars (k, v) ++ ('\n' :: ' ' :: ' ' :: '}' :: rest)) =
        (match parseField (fieldChars (k, v) ++ ('\n' :: ' ' :: ' ' :: '}' :: rest)) with
         | none => none
         | some (kv2, r) =>
           match skipWs r with
           | [] => none
           | c :: rest2 =>
             if c = ',' then
               (parseFieldsAux fuel (skipWs rest2)).map (fun p => (kv2 :: p.1, p.2))
             else if c = '}' then some ([kv2], rest2)
             else none) from rfl]
      rw [parseField_fieldChars k v ('\n' :: ' ' :: ' ' :: '}' :: rest)
        (fun c t he => by cases he; decide)]
      exact rfl
  | cons kv2 kvs ih =>
    intro kv fuel rest hfuel
    rcases fuel with _ | fuel
    · omega
    · rcases kv with ⟨k, v⟩
      have harg : restFieldsChars (kv2 :: kvs) ++ ('\n' :: ' ' :: ' ' :: '}' :: rest) =
          ',' :: '\n' :: ' ' :: ' ' :: ' ' :: ' ' ::
            (fieldChars kv2 ++ (restFieldsChars kvs ++ ('\n' :: ' ' :: ' ' :: '}' :: rest))) := by
        rw [restFieldsChars]
        simp
      rw [harg]
      rw [show parseFieldsAux (fuel + 1)
          (fieldChars (k, v) ++ (',' :: '\n' :: ' ' :: ' ' :: ' ' :: ' ' ::
            (fieldChars kv2 ++ (restFieldsChars kvs ++ ('\n' :: ' ' :: ' ' :: '}' :: rest))))) =
        (match parseField (fieldChars (k, v) ++ (',' :: '\n' :: ' ' :: ' ' :: ' ' :: ' ' ::
            (fieldChars kv2 ++ (restFieldsChars kvs ++ ('\n' :: ' ' :: ' ' :: '}' :: rest))))) with
         | none => none
         | some (kv3, r) =>
           match skipWs r with
           | [] => none
           | c :: rest2 =>
             if c = ',' then
               (parseFieldsAux fuel (skipWs rest2)).map (fun p => (kv3 :: p.1, p.2))
             else if c = '}' then some ([kv3], rest2)
             else none) from rfl]
      rw [parseField_fieldChars k v _ (fun c t he => by cases he; decide)]
      have hkv2 : ∃ t, fieldChars kv2 = '"' :: t := ⟨_, rfl⟩
      obtain ⟨t2, ht2⟩ := hkv2
      show (parseFieldsAux fuel (skipWs ('\n' :: ' ' :: ' ' :: ' ' :: ' ' ::
          (fieldChars kv2 ++ (restFieldsChars kvs ++ ('\n' :: ' ' :: ' ' :: '}' :: rest)))))).map
            (fun p => ((k, v) :: p.1, p.2)) = _
      have hskip : skipWs ('\n' :: ' ' :: ' ' :: ' ' :: ' ' ::
          (fieldChars kv2 ++ (restFieldsChars kvs ++ ('\n' :: ' ' :: ' ' :: '}' :: rest)))) =
          fieldChars kv2 ++ (restFieldsChars kvs ++ ('\n' :: ' ' :: ' ' :: '}' :: rest)) := by
        rw [skipWs_cons_ws _ _ (by decide), skipWs_cons_ws _ _ (by decide),
          skipWs_cons_ws _ _ (by decide), skipWs_cons_ws _ _ (by decide),
          skipWs_cons_ws _ _ (by decide), ht2, List.cons_append,
          skipWs_cons_not _ _ (by decide)]
      rw [hskip, ih kv2 fuel rest (by simpa using Nat.lt_of_succ_lt_succ hfuel)]
      rfl

end Exam

namespace Exam

/-- Rebuilding a record from its rendered fields is the identity. -/
theorem recOfFields_fieldsOf (b : BookRec) : recOfFields (fieldsOf b) = b := by
  rcases b with ⟨i, t, a, v⟩
  rcases i with _ | iv <;> rcases t with _ | tv <;> rcases a with _ | av <;>
    rcases v with _ | vv <;>
    simp [fieldsOf, recOfFields, lookupField]

/-- A record renders at most four fields. -/
theorem fieldsOf_length_le (b : BookRec) : (fieldsOf b).length ≤ 4 := by
  rcases b with ⟨i, t, a, v⟩
  rcases i with _ | iv <;> rcases t with _ | tv <;> rcases a with _ | av <;>
    rcases v with _ | vv <;>
    simp [fieldsOf]

/-- A rendered record starts with an opening brace. -/
theorem bookChars_head (b : BookRec) : ∃ t, bookChars b = '{' :: t := by
  rw [bookChars.eq_def]
  rcases fieldsOf b with _ | ⟨kv, kvs⟩
  · exact ⟨_, rfl⟩
  · exact ⟨_, rfl⟩

/-- The object codec round-trip: a rendered record parses back to its field
list, given enough fuel. -/
theorem parseObj_bookChars (b : BookRec) (fuel : Nat) (hfuel : 4 ≤ fuel)
    (rest : List Char) :
    parseObj fuel (bookChars b ++ rest) = some (fieldsOf b, rest) := by
  rw [bookChars.eq_def]
  rcases hfb : fieldsOf b with _ | ⟨kv, kvs⟩
  · exact rfl
  · have harg : ('{' :: '\n' :: ' ' :: ' ' :: ' ' :: ' ' ::
        (fieldChars kv ++ restFieldsChars kvs ++ ['\n', ' ', ' ', '}'])) ++ rest =
        '{' :: '\n' :: ' ' :: ' ' :: ' ' :: ' ' ::
        (fieldChars kv ++ (restFieldsChars kvs ++ ('\n' :: ' ' :: ' ' :: '}' :: rest))) := by
      simp
    rw [harg]
    have hkv : ∃ t2, fieldChars kv = '"' :: t2 := ⟨_, rfl⟩
    obtain ⟨t2, ht2⟩ := hkv
    have hskip : skipWs ('\n' :: ' ' :: ' ' :: ' ' :: ' ' ::
        (fieldChars kv ++ (restFieldsChars kvs ++ ('\n' :: ' ' :: ' ' :: '}' :: rest)))) =
        fieldChars kv ++ (restFieldsChars kvs ++ ('\n' :: ' ' :: ' ' :: '}' :: rest)) := by
      rw [skipWs_cons_ws _ _ (by decide), skipWs_cons_ws _ _ (by decide),
        skipWs_cons_ws _ _ (by decide), skipWs_cons_ws _ _ (by decide),
        skipWs_cons_ws _ _ (by decide), ht2, List.cons_append,
        skipWs_cons_not _ _ (by decide)]
    rw [show parseObj fuel ('{' :: '\n' :: ' ' :: ' ' :: ' ' :: ' ' ::
        (fieldChars kv ++ (restFieldsChars kvs ++ ('\n' :: ' ' :: ' ' :: '}' :: rest)))) =
      (match skipWs ('\n' :: ' ' :: ' ' :: ' ' :: ' ' ::
          (fieldChars kv ++ (restFieldsChars kvs ++ ('\n' :: ' ' :: ' ' :: '}' :: rest)))) with
       | [] => none
       | c2 :: rest2 =>
         if c2 = '}' then some ([], rest2)
         else parseFieldsAux fuel (c2 :: rest2)) from rfl]
    rw [hskip, ht2]
    show (if ('"' : Char) = '}' then
        some ([], t2 ++ (restFieldsChars kvs ++ ('\n' :: ' ' :: ' ' :: '}' :: rest)))
      else parseFieldsAux fuel
        ('"' :: (t2 ++ (restFieldsChars kvs ++ ('\n' :: ' ' :: ' ' :: '}' :: rest))))) =
      some (kv :: kvs, rest)
    rw [if_neg (by decide : ¬('"' : Char) = '}')]
    rw [show ('"' : Char) :: (t2 ++ (restFieldsChars kvs ++ ('\n' :: ' ' :: ' ' :: '}' :: rest))) =
      ('"' :: t2) ++ (restFieldsChars kvs ++ ('\n' :: ' ' :: ' ' :: '}' :: rest)) from rfl,
      ← ht2]
    have hlen : kvs.length < fuel := by
      have := fieldsOf_length_le b
      rw [hfb] at this
      simp at this
      omega
    exact parseFieldsAux_run kvs kv fuel rest hlen

end Exam

namespace Exam

/-- The items of the array parse back, up to the closing bracket. -/
theorem parseItemsAux_run (bs : List BookRec) :
    ∀ (b : BookRec) (fuel : Nat) (rest : List Char),
    bs.length + 4 < fuel →
    parseItemsAux fuel (bookChars b ++ (restBooksChars bs ++ ('\n' :: ']' :: rest))) =
      some (b :: bs, rest) := by
  induction bs with
  | nil =>
    intro b fuel rest hfuel
    rcases fuel with _ | fuel
    · omega
    · rw [show restBooksChars [] = [] from rfl, List.nil_append]
      rw [show parseItemsAux (fuel + 1) (bookChars b ++ ('\n' :: ']' :: rest)) =
        (match parseObj fuel (bookChars b ++ ('\n' :: ']' :: rest)) with
         | none => none
         | some (fs, r) =>
           match skipWs r with
           | [] => none
           | c :: rest2 =>
             if c = ',' then
               (parseItemsAux fuel (skipWs rest2)).map (fun p => (recOfFields fs :: p.1, p.2))
             else if c = ']' then some ([recOfFields fs], rest2)
             else none) from rfl]
      rw [parseObj_bookChars b fuel (by omega) ('\n' :: ']' :: rest)]
      show some ([recOfFields (fieldsOf b)], rest) = some ([b], rest)
      rw [recOfFields_fieldsOf]
  | cons b2 bs ih =>
    intro b fuel rest hfuel
    rcases fuel with _ | fuel
    · omega
    · have harg : restBooksChars (b2 :: bs) ++ ('\n' :: ']' :: rest) =
          ',' :: '\n' :: ' ' :: ' ' ::
            (bookChars b2 ++ (restBooksChars bs ++ ('\n' :: ']' :: rest))) := by
        rw [restBooksChars]
        simp
      rw [harg]
      rw [show parseItemsAux (fuel + 1) (bookChars b ++ (',' :: '\n' :: ' ' :: ' ' ::
          (bookChars b2 ++ (restBooksChars bs ++ ('\n' :: ']' :: rest))))) =
        (match parseObj fuel (bookChars b ++ (',' :: '\n' :: ' ' :: ' ' ::
            (bookChars b2 ++ (restBooksChars bs ++ ('\n' :: ']' :: rest))))) with
         | none => none
         | some (fs, r) =>
           match skipWs r with
           | [] => none
           | c :: rest2 =>
             if c = ',' then
               (parseItemsAux fuel (skipWs rest2)).map (fun p => (recOfFields fs :: p.1, p.2))
             else if c = ']' then some ([recOfFields fs], rest2)
             else none) from rfl]
      rw [parseObj_bookChars b fuel (by omega) _]
      obtain ⟨t2, ht2⟩ := bookChars_head b2
      have hskip : skipWs ('\n' :: ' ' :: ' ' ::
          (bookChars b2 ++ (restBooksChars bs ++ ('\n' :: ']' :: rest)))) =
          bookChars b2 ++ (restBooksChars bs ++ ('\n' :: ']' :: rest)) := by
        rw [skipWs_cons_ws _ _ (by decide), skipWs_cons_ws _ _ (by decide),
          skipWs_cons_ws _ _ (by decide), ht2, List.cons_append,
          skipWs_cons_not _ _ (by decide)]
      show (parseItemsAux fuel (skipWs ('\n' :: ' ' :: ' ' ::
          (bookChars b2 ++ (restBooksChars bs ++ ('\n' :: ']' :: rest)))))).map
            (fun p => (recOfFields (fieldsOf b) :: p.1, p.2)) = _
      rw [hskip, ih b2 fuel rest (by simp at hfuel ⊢; omega), recOfFields_fieldsOf]
      rfl

/-- Rendered items are at least as long as the item count. -/
theorem restBooksChars_length (bs : List BookRec) :
    bs.length ≤ (restBooksChars bs).length := by
  induction bs with
  | nil => simp [restBooksChars]
  | cons b bs ih =>
    rw [restBooksChars]
    simp only [List.length_cons, List.length_append]
    omega

/-- The whole-file codec round-trip: parsing the exact text `writeBooks`
persists recovers the collection, for every collection of records. -/
theorem parseBooksChars_booksChars (books : List BookRec) :
    parseBooksChars (booksChars books) = some books := by
  rcases books with _ | ⟨b, bs⟩
  · rfl
  · rw [booksChars]
    obtain ⟨t0, ht0⟩ := bookChars_head b
    have hskip : skipWs ('\n' :: ' ' :: ' ' ::
        (bookChars b ++ restBooksChars bs ++ ['\n', ']'])) =
        bookChars b ++ restBooksChars bs ++ ['\n', ']'] := by
      rw [skipWs_cons_ws _ _ (by decide), skipWs_cons_ws _ _ (by decide),
        skipWs_cons_ws _ _ (by decide), ht0, List.cons_append, List.cons_append,
        skipWs_cons_not _ _ (by decide)]
    rw [show parseBooksChars ('[' :: '\n' :: ' ' :: ' ' ::
        (bookChars b ++ restBooksChars bs ++ ['\n', ']'])) =
      (match skipWs ('\n' :: ' ' :: ' ' ::
          (bookChars b ++ restBooksChars bs ++ ['\n', ']'])) with
       | [] => none
       | c2 :: rest2 =>
         if c2 = ']' then if skipWs rest2 = [] then some [] else none
         else
           match parseItemsAux (('[' :: '\n' :: ' ' :: ' ' ::
               (bookChars b ++ restBooksChars bs ++ ['\n', ']'])).length + 5) (c2 :: rest2) with
           | none => none
           | some (books2, rest3) => if skipWs rest3 = [] then some books2 else none) from rfl]
    rw [hskip, ht0]
    show (if ('{' : Char) = ']' then
        if skipWs (t0 ++ restBooksChars bs ++ ['\n', ']']) = [] then some [] else none
      else
        match parseItemsAux (('[' :: '\n' :: ' ' :: ' ' ::
            (('{' :: t0) ++ restBooksChars bs ++ ['\n', ']'])).length + 5)
            ('{' :: (t0 ++ restBooksChars bs ++ ['\n', ']'])) with
        | none => none
        | some (books2, rest3) => if skipWs rest3 = [] then some books2 else none) =
      some (b :: bs)
    rw [if_neg (by decide : ¬('{' : Char) = ']')]
    have hlen : bs.length + 4 < ('[' :: '\n' :: ' ' :: ' ' ::
        (('{' :: t0) ++ restBooksChars bs ++ ['\n', ']'])).length + 5 := by
      have h1 := restBooksChars_length bs
      simp only [List.length_cons, List.length_append]
      omega
    have hstream : ('{' : Char) :: (t0 ++ restBooksChars bs ++ ['\n', ']']) =
        bookChars b ++ (restBooksChars bs ++ ('\n' :: ']' :: ([] : List Char))) := by
      rw [ht0]
      simp
    rw [hstream,
      parseItemsAux_run bs b _ [] hlen]
    rfl

end Exam

namespace Exam

/-- C9: the persisted file format round-trips.  At the store level, loading
what `writeBooks` wrote yields an equal collection.  At the text level, for
every collection X, parsing the exact file content `save(X)` produces
(`JSON.stringify(books, null, 2)`) reconstructs X, and saving the loaded
collection reproduces the identical file content, so `save(load())` is a
no-op on the content of a file the store wrote. -/
theorem claim9_format_roundtrip :
    (∀ books : List BookRec, readBooks (writeBooks books) = .ok books) ∧
    (∀ books : List BookRec, parseBooksFile (stringifyBooks books) = some books) ∧
    (∀ books : List BookRec,
      stringifyBooks ((parseBooksFile (stringifyBooks books)).getD []) = stringifyBooks books) := by
  have hparse : ∀ books : List BookRec,
      parseBooksFile (stringifyBooks books) = some books :=
    fun books => parseBooksChars_booksChars books
  refine ⟨fun books => rfl, hparse, fun books => ?_⟩
  rw [hparse books]
  rfl

end Exam
